import Mathlib

/-!
Verification of the dream-tutor resource packaging pipeline.

Byte sequences are modelled as `List Nat` with values kept below 256 where it
matters; text is modelled as the list of Unicode scalar values of its
characters.  External crates are handled as follows:

* `rc4` — the RC4 stream cipher is implemented in full (KSA + PRGA);
* `flate2` — the raw zlib transform is an abstract parameter pair
  `deflate`/`inflate`; theorems that need the zlib round trip take it as a
  hypothesis at the relevant inputs;
* `encoding_rs` (GBK) — the legacy double-byte transcode is an abstract
  parameter pair `gbkEnc`/`gbkDec`; "representable in the codepage" is
  formalised as the round-trip hypothesis at the relevant name;
* `mlua` — the Lua compiler is an abstract `compile`, and the runtime
  execution of a compiled loader script is an abstract `runLoader` tied to
  `compile` by an explicit contract hypothesis.
-/

set_option maxRecDepth 100000

namespace DreamTutor

/-- Character codes of a string literal, used to spell out the fixed text
fragments of the source. -/
def strCodes (s : String) : List Nat := s.toList.map Char.toNat

/-- Little-endian bytes of a 32-bit value, as in `u32::to_le_bytes`. -/
def u32le (n : Nat) : List Nat :=
  [n % 256, n / 256 % 256, n / 256 / 256 % 256, n / 256 / 256 / 256 % 256]

/-- Little-endian 32-bit read, as in `u32::from_le_bytes`. -/
def leU32 (bs : List Nat) : Nat := bs.foldr (fun b acc => b + 256 * acc) 0

/-- Upper-case hex digit character code for a nibble, as in the upper-case
table of the `hex` crate. -/
def nibbleCode (n : Nat) : Nat := if n < 10 then 48 + n else 55 + n

/-- Character codes of `hex::encode_upper`: two hex digits per byte, high
nibble first. -/
def hexUpper : List Nat → List Nat
  | [] => []
  | b :: t => nibbleCode (b / 16) :: nibbleCode (b % 16) :: hexUpper t

/-- Value of one hex digit character, as accepted by `hex::decode`. -/
def digitVal (c : Nat) : Option Nat :=
  if 48 ≤ c ∧ c ≤ 57 then some (c - 48)
  else if 65 ≤ c ∧ c ≤ 70 then some (c - 55)
  else if 97 ≤ c ∧ c ≤ 102 then some (c - 87)
  else none

/-- `hex::decode` on character codes: pairs of hex digits to bytes; fails on
any non-digit or on odd length. -/
def hexDecode : List Nat → Option (List Nat)
  | [] => some []
  | [_] => none
  | hi :: lo :: t =>
    match digitVal hi, digitVal lo, hexDecode t with
    | some h, some l, some r => some ((16 * h + l) :: r)
    | _, _, _ => none

/-! ## Stream cipher layer (`src/crypto.rs`, `rc4` crate)

The `rc4` crate performs the textbook RC4 key schedule and keystream
generation; `apply_keystream` XORs the data with the keystream.  State
indexing is modelled with explicit list access (`nthD`) and update (`setL`),
mirroring in-bounds array indexing. -/

/-- List read with a default, as array indexing on the 256-byte state. -/
def nthD : List Nat → Nat → Nat → Nat
  | [], _, d => d
  | a :: _, 0, _ => a
  | _ :: t, n + 1, d => nthD t n d

/-- List update, as array assignment on the 256-byte state. -/
def setL : List Nat → Nat → Nat → List Nat
  | [], _, _ => []
  | _ :: t, 0, v => v :: t
  | a :: t, n + 1, v => a :: setL t n v

/-- Swap two positions of the RC4 state. -/
def swapL (s : List Nat) (a b : Nat) : List Nat :=
  setL (setL s a (nthD s b 0)) b (nthD s a 0)

/-- One iteration of the RC4 key schedule. -/
def ksaStep (key : List Nat) (p : List Nat × Nat) (i : Nat) : List Nat × Nat :=
  let j := (p.2 + nthD p.1 i 0 + nthD key (i % key.length) 0) % 256
  (swapL p.1 i j, j)

/-- RC4 key scheduling (KSA), as run by `Rc4::new`. -/
def ksa (key : List Nat) : List Nat :=
  ((List.range 256).foldl (ksaStep key) (List.range 256, 0)).1

/-- RC4 keystream generation (PRGA): `n` output bytes from state `s` with
counters `i`, `j`. -/
def prga : Nat → List Nat → Nat → Nat → List Nat
  | 0, _, _, _ => []
  | n + 1, s, i, j =>
    let i' := (i + 1) % 256
    let j' := (j + nthD s i' 0) % 256
    let s' := swapL s i' j'
    nthD s' ((nthD s' i' 0 + nthD s' j' 0) % 256) 0 :: prga n s' i' j'

/-- The keystream a fresh `Rc4` instance for `key` produces. -/
def keystream (key : List Nat) (n : Nat) : List Nat := prga n (ksa key) 0 0

/-- `Rc4::apply_keystream`: XOR the data with a fresh keystream. -/
def rc4apply (key : List Nat) (data : List Nat) : List Nat :=
  List.zipWith (fun d k => d ^^^ k) data (keystream key data.length)

/-- `RESOURCE_KEY`: the 19 bytes of `b"_Npi_dest__cc_&%_23"`. -/
def RESOURCE_KEY : List Nat :=
  [95, 78, 112, 105, 95, 100, 101, 115, 116, 95, 95, 99, 99, 95, 38, 37, 95, 50, 51]

/-- `ULIB_KEY`: the 14 bytes of `b"&!!__kl_\xB2\xE2_I_0"`. -/
def ULIB_KEY : List Nat :=
  [38, 33, 33, 95, 95, 107, 108, 95, 178, 226, 95, 73, 95, 48]

/-- `encrypt_res` / `decrypt_res`: the container-layer cipher pass. -/
def encrypt_res (d : List Nat) : List Nat := rc4apply RESOURCE_KEY d

/-- `encrypt_ulib` / `decrypt_ulib`: the entry-layer cipher pass. -/
def encrypt_ulib (d : List Nat) : List Nat := rc4apply ULIB_KEY d

/-! ## Codec (`src/crypto.rs`: `compress` / `decompress`)

The zlib transform of `flate2` is abstracted as `deflate` / `inflate`
parameters; `inflate` returns `none` on a structurally corrupt stream.  A
failed `.unwrap()` in the source is modelled as the `panicked` outcome. -/

/-- `COMPRESS_MAGIC`, the fixed 4-byte container tag `0x033E0F0D`. -/
def COMPRESS_MAGIC : Nat := 0x033E0F0D

/-- `compress(data, &mut buf)`: converts the length to `u32` (panicking —
`none` — if it does not fit), then appends magic, little-endian length and
the deflate stream to the existing buffer, returning the new buffer
contents. -/
def compress (deflate : List Nat → List Nat) (data buf : List Nat) :
    Option (List Nat) :=
  if data.length < 4294967296 then
    some (buf ++ u32le COMPRESS_MAGIC ++ u32le data.length ++ deflate data)
  else none

/-- Fuel-driven digit accumulation for `hexNatUpper`; the fuel always
suffices because the value shrinks by a factor of 16 each step. -/
def hexNatUpperAux : Nat → Nat → List Nat → List Nat
  | 0, _, acc => acc
  | fuel + 1, n, acc =>
    if n < 16 then nibbleCode n :: acc
    else hexNatUpperAux fuel (n / 16) (nibbleCode (n % 16) :: acc)

/-- Uppercase hex of a number with no leading zeros, as `format!` with the
`:X` specifier renders the offending magic. -/
def hexNatUpper (n : Nat) : List Nat := hexNatUpperAux (n + 1) n []

/-- Outcome of `decompress`: a panic (failed `.unwrap()`), a returned
`io::Error`, or the recovered bytes left in the output buffer. -/
inductive DecompressResult where
  /-- the process aborts in `.unwrap()` on the 8-byte header read -/
  | panicked
  /-- `InvalidData` error whose message is the uppercase hex of the observed
  magic, from `format!` with the `:X` specifier -/
  | badMagic (msg : List Nat)
  /-- error propagated from the zlib decoder: structurally corrupt stream -/
  | zlibCorrupt
  /-- error propagated from the zlib read: fewer decompressed bytes than the
  declared size -/
  | zlibEof
  /-- success, with the decompressed bytes -/
  | ok (out : List Nat)
  deriving DecidableEq

/-- `decompress(data, &mut buf)`: reads the 8-byte header (panicking if the
input is shorter), validates the magic, resizes the buffer to the declared
size and fills it from the zlib decoder.  The final buffer contents do not
depend on the buffer passed in, so the model is a function of the input
alone. -/
def decompress (inflate : List Nat → Option (List Nat)) (data : List Nat) :
    DecompressResult :=
  if data.length < 8 then .panicked
  else
    let magic := leU32 (data.take 4)
    if magic = COMPRESS_MAGIC then
      let size := leU32 ((data.drop 4).take 4)
      if size = 0 then .ok []
      else
        match inflate (data.drop 8) with
        | none => .zlibCorrupt
        | some out => if size ≤ out.length then .ok (out.take size) else .zlibEof
    else .badMagic (hexNatUpper magic)

/-! ## Bundle assembler (`src/bundle.rs`)

`Bundles` wraps an `IndexMap<&str, Vec<u8>>`; it is modelled as an ordered
association list with the `IndexMap::insert` semantics: replacing the value
in place when the key exists, appending otherwise. -/

/-- One bundle: names (character-code lists) to payloads, insertion order. -/
abbrev Bundle := List (List Nat × List Nat)

/-- `IndexMap::insert`: upsert that keeps the first-seen position. -/
def insertKV : Bundle → List Nat → List Nat → Bundle
  | [], k, v => [(k, v)]
  | (k', v') :: t, k, v =>
    if k' = k then (k', v) :: t else (k', v') :: insertKV t k v

/-- `IndexMap` lookup by name. -/
def lookupKV : Bundle → List Nat → Option (List Nat)
  | [], _ => none
  | (k', v') :: t, k => if k' = k then some v' else lookupKV t k

/-- Emission order of the names. -/
def keysOf (m : Bundle) : List (List Nat) := m.map Prod.fst

/-! ## Loader script rendering (`Bundles::pack`)

`pack` walks the entries in order; for each one it GBK-encodes and
hex-encodes the name, compresses the payload into a fresh buffer, applies
the entry cipher, hex-encodes, and emits one `__U_Lib("...", "...")`
statement followed by a newline.  The accumulated text is then compiled and
the container cipher applied. -/

/-- The container bytes `compress` produces into an empty buffer. -/
def compressBytes (deflate : List Nat → List Nat) (p : List Nat) : List Nat :=
  u32le COMPRESS_MAGIC ++ u32le p.length ++ deflate p

/-- One loop iteration of `pack`: the statement text for one entry, `none`
when `compress` panics on an oversized payload. -/
def stmtFor (gbkEnc : List Nat → List Nat) (deflate : List Nat → List Nat)
    (e : List Nat × List Nat) : Option (List Nat) :=
  match compress deflate e.2 [] with
  | none => none
  | some data =>
    some (strCodes ("__U_Lib(\"") ++ hexUpper (gbkEnc e.1) ++ strCodes ("\", \"")
      ++ hexUpper (rc4apply ULIB_KEY data) ++ strCodes ("\")") ++ [10])

/-- Accumulating step of the `pack` loop over the string `s`. -/
def renderStep (gbkEnc deflate : List Nat → List Nat)
    (acc : Option (List Nat)) (e : List Nat × List Nat) : Option (List Nat) :=
  match acc, stmtFor gbkEnc deflate e with
  | some s, some st => some (s ++ st)
  | _, _ => none

/-- The loader script text `pack` accumulates before compiling it. -/
def renderLoaderScript (gbkEnc deflate : List Nat → List Nat)
    (entries : Bundle) : Option (List Nat) :=
  entries.foldl (renderStep gbkEnc deflate) (some [])

/-- The spec's statement shape for one entry:
`__U_Lib("<hex-upper gbk name>", "<hex-upper entry-cipher(compress payload)>")`
plus a terminating newline. -/
def specStmt (gbkEnc deflate : List Nat → List Nat)
    (e : List Nat × List Nat) : List Nat :=
  strCodes ("__U_Lib(\"") ++ hexUpper (gbkEnc e.1) ++ strCodes ("\", \"")
    ++ hexUpper (rc4apply ULIB_KEY (compressBytes deflate e.2))
    ++ strCodes ("\")") ++ [10]

/-- `Bundles::pack`: render, compile, container-encrypt. -/
def pack (gbkEnc deflate : List Nat → List Nat) (compile : List Nat → List Nat)
    (entries : Bundle) : Option (List Nat) :=
  match renderLoaderScript gbkEnc deflate entries with
  | some s => some (rc4apply RESOURCE_KEY (compile s))
  | none => none

/-! ## Identifier obfuscation -/

/-- Obfuscated identifier: GBK transcode then uppercase hex, as in `pack`. -/
def encodeName (gbkEnc : List Nat → List Nat) (name : List Nat) : List Nat :=
  hexUpper (gbkEnc name)

/-- Identifier decoding, as in the extraction harness: hex decode (failing on
malformed hex) then GBK decode. -/
def decodeName (gbkDec : List Nat → List Nat) (s : List Nat) : Option (List Nat) :=
  (hexDecode s).map gbkDec

/-! ## Bundle construction (`Bundles::with_adaptor` / `set_database`) -/

/-- `Bundles::with_adaptor`: seed with the adaptor entry, then insert every
entry of the compiled-in static library catalog. -/
def withAdaptor (catalog : Bundle) (adaptor : List Nat) : Bundle :=
  catalog.foldl (fun m e => insertKV m e.1 e.2)
    (insertKV [] (strCodes ("adaptor.lua")) adaptor)

/-- `Bundles::set_database`: upsert under the reserved database name. -/
def setDatabase (m : Bundle) (bytecode : List Nat) : Bundle :=
  insertKV m (strCodes ("database.lua")) bytecode

/-! ## Adaptor generator

`GameRes::create_adaptor` in `src/lib.rs` renders the fixed two-hook Lua
template, GBK-encodes it and returns the bytes.  In the version under `src/`
the time slot is stamped with the wall clock and the remaining string slot
(`hash`) is the empty literal; the caller in `src/main.rs` drives a `GameRes`
with `build_time` and `filename` setters that are absent from `src/`, so the
four-parameter generator is modelled from the spec below. -/

/-- Rust's boolean `Display`, substituted for `{enable_statistics}`. -/
def boolLit : Bool → List Nat
  | true => strCodes ("true")
  | false => strCodes ("false")

/-- Template text before the statistics gate (first hook head). -/
def adFrag1 : List Nat :=
  strCodes ("\n        local f1 = 核心.数据统计\n        核心.数据统计 = function(uid, gid, unk, hash, time)\n            ")

/-- Template text between the gate and the forwarded-call string slots. -/
def adFrag2 : List Nat := strCodes ("\n                f1(0, 0, 1, ")

/-- Template text closing the first hook and opening the anti-cheat hook. -/
def adFrag3 : List Nat :=
  strCodes (")\n            end\n        end\n        local f2 = 核心.anti_hacking\n        核心.anti_hacking = function(enabled, keywords)\n            f2(1, ")

/-- Template text closing the anti-cheat hook. -/
def adFrag4 : List Nat := strCodes (")\n        end\n        ")

/-- Modelled from the spec: the four-parameter adaptor generator of §4.6.
`GameRes` under `src/` lacks the `build_time` and `filename` setters its
caller in `src/main.rs` uses (it stamps `now_utc` and an empty `hash`
literal); following the spec, the build-time parameter fills the `time`
string slot and the filename the remaining `hash` string slot, all four
parameters substituted verbatim into the fixed two-hook template of
`create_adaptor`. -/
def adaptorText (keywords : List Nat) (statistics : Bool)
    (buildTime filename : List Nat) : List Nat :=
  adFrag1 ++ strCodes ("if ") ++ boolLit statistics ++ strCodes (" then")
    ++ adFrag2 ++ [34] ++ filename ++ [34] ++ strCodes (", ")
    ++ [34] ++ buildTime ++ [34] ++ adFrag3
    ++ [34] ++ keywords ++ [34] ++ adFrag4

/-! ## Resource builder (orchestrator) and extraction harness

The build orchestration that validates the payload size and strips the fixed
upload header is part of the `GameRes` version missing from `src/`; it is
modelled from §4.7 of the spec, on top of the `Bundles`/`crypto` layers taken
from the source.  Extraction follows `tests::extract_bundle` in
`src/lib.rs`. -/

/-- Failure states of the modelled build pipeline. -/
inductive BuildErr where
  /-- `ValidationError::UnsupportedOption`: no feature flag enabled -/
  | unsupportedOption
  /-- `ValidationError::TooSmall`: payload shorter than the header floor -/
  | tooSmall
  /-- a payload too large for the 32-bit size field (a panic in `compress`) -/
  | sizeOverflow
  deriving DecidableEq

/-- Terminal state of a build: `Built(artifact)` or `Failed(error)`. -/
inductive BuildResult where
  | ok (art : List Nat)
  | err (e : BuildErr)
  deriving DecidableEq

/-- Build options: the free-text keyword list, the three feature flags
checked by the caller layer (`op_safedata`, `op_jiasu`, `op_qudong`), the
separate statistics switch, and the build-time/filename data. -/
structure BuildOptions where
  keywords : List Nat
  safedata : Bool
  jiasu : Bool
  qudong : Bool
  statistics : Bool
  buildTime : List Nat
  filename : List Nat

/-- The supported-option check of the caller layer in `src/main.rs`: at
least one of the three feature flags must be set. -/
def optionsSupported (o : BuildOptions) : Bool := o.safedata || o.jiasu || o.qudong

/-- The bundle a build assembles: adaptor bytecode, static catalog, then the
database bytecode. -/
def bundleFor (gbkEnc compile : List Nat → List Nat) (catalog : Bundle)
    (o : BuildOptions) (stripped : List Nat) : Bundle :=
  setDatabase
    (withAdaptor catalog
      (compile (gbkEnc (adaptorText o.keywords o.statistics o.buildTime o.filename))))
    (compile stripped)

/-- The pipeline stages after validation: compile the stripped database,
generate and compile the adaptor, assemble the bundle, pack. -/
def buildStripped (gbkEnc deflate compile : List Nat → List Nat)
    (catalog : Bundle) (o : BuildOptions) (stripped : List Nat) : BuildResult :=
  match pack gbkEnc deflate compile (bundleFor gbkEnc compile catalog o stripped) with
  | some art => .ok art
  | none => .err .sizeOverflow

/-- Modelled from the spec: the `build` orchestrator of §4.7 with the size
floor and header strip, which the `GameRes::build` present under `src/`
lacks (its superseding version is missing from `src/`; `src/main.rs` is its
caller).  The header floor is left as a parameter because the spec fixes no
value for it. -/
def buildFull (gbkEnc deflate compile : List Nat → List Nat) (catalog : Bundle)
    (floor : Nat) (o : BuildOptions) (db : List Nat) : BuildResult :=
  if optionsSupported o = false then .err .unsupportedOption
  else if db.length < floor then .err .tooSmall
  else buildStripped gbkEnc deflate compile catalog o (db.drop floor)

/-- One `__U_Lib` callback of the extraction harness: hex-decode the name and
GBK-decode it, hex-decode the payload, undo the entry cipher, decompress.
The harness discards the decompression result (`let _ = ...`), inserting
whatever the buffer holds; the failure case is modelled as the empty
buffer. -/
def decodePair (gbkDec : List Nat → List Nat)
    (inflate : List Nat → Option (List Nat)) (pr : List Nat × List Nat) :
    Option (List Nat × List Nat) :=
  match hexDecode pr.1, hexDecode pr.2 with
  | some nb, some db =>
    some (gbkDec nb,
      match decompress inflate (rc4apply ULIB_KEY db) with
      | .ok l => l
      | _ => [])
  | _, _ => none

/-- Folding the callback over the registration calls, building the recovered
entry map; a hex-decoding failure aborts the extraction. -/
def extractStep (gbkDec : List Nat → List Nat)
    (inflate : List Nat → Option (List Nat)) (acc : Option Bundle)
    (pr : List Nat × List Nat) : Option Bundle :=
  match acc, decodePair gbkDec inflate pr with
  | some m, some nl => some (insertKV m nl.1 nl.2)
  | _, _ => none

/-- `tests::extract_bundle`: strip the 10-byte trailer, undo the container
cipher, run the loader with `__U_Lib` captured (abstracted as `runLoader`),
and decode every reported pair. -/
def extract (gbkDec : List Nat → List Nat)
    (inflate : List Nat → Option (List Nat))
    (runLoader : List Nat → List (List Nat × List Nat))
    (artifact : List Nat) : Option Bundle :=
  (runLoader (rc4apply RESOURCE_KEY (artifact.take (artifact.length - 10)))).foldl
    (extractStep gbkDec inflate) (some [])

/-- The literal argument pairs the rendered loader script carries, statement
by statement. -/
def renderedPairs (gbkEnc deflate : List Nat → List Nat) (es : Bundle) :
    List (List Nat × List Nat) :=
  es.map (fun e =>
    (hexUpper (gbkEnc e.1), hexUpper (rc4apply ULIB_KEY (compressBytes deflate e.2))))

/-- Side conditions letting one entry survive the pack/extract round trip:
the payload fits the 32-bit size field, zlib round-trips on it and emits
bytes, and the name is GBK-representable. -/
abbrev entryGood (gbkEnc gbkDec deflate : List Nat → List Nat)
    (inflate : List Nat → Option (List Nat)) (e : List Nat × List Nat) : Prop :=
  e.2.length < 4294967296 ∧ inflate (deflate e.2) = some e.2
    ∧ (∀ b ∈ deflate e.2, b < 256)
    ∧ gbkDec (gbkEnc e.1) = e.1 ∧ (∀ b ∈ gbkEnc e.1, b < 256)

/-- Witness instantiation for the end-to-end claim: the identity Lua
compiler, a byte-clamping transcode/deflate pair, an empty catalog and
header floor zero. -/
def wByteClamp : List Nat → List Nat := fun l => l.map (fun c => c % 256)

/-- Witness zlib inverse: plain success. -/
def wInflate : List Nat → Option (List Nat) := fun l => some l

/-- Witness identity compiler. -/
def wCompile : List Nat → List Nat := fun l => l

/-- Witness GBK decoder: the identity. -/
def wGbkDec : List Nat → List Nat := fun l => l

/-- Witness option set: anti-memory-cheat only, statistics off. -/
def wOpts : BuildOptions := ⟨[], true, false, false, false, [], []⟩

/-- Witness loader runtime: reports exactly the rendered statement pairs of
the bundle the witness build assembles. -/
def wRunLoader : List Nat → List (List Nat × List Nat) :=
  fun _ => renderedPairs wByteClamp wByteClamp
    (bundleFor wByteClamp wCompile [] wOpts (List.drop 0 []))

theorem leU32_u32le (n : Nat) : leU32 (u32le n) = n % 4294967296 := by
  simp only [u32le, leU32, List.foldr]
  omega

theorem u32le_lt (n : Nat) : ∀ b ∈ u32le n, b < 256 := by
  simp only [u32le, List.mem_cons, List.not_mem_nil, or_false]
  intro b hb
  rcases hb with h | h | h | h <;> omega

theorem digitVal_nibbleCode (n : Nat) (h : n < 16) :
    digitVal (nibbleCode n) = some n := by
  unfold nibbleCode
  rcases Nat.lt_or_ge n 10 with h10 | h10
  · rw [if_pos h10]
    unfold digitVal
    rw [if_pos (by omega)]
    simp only [Option.some.injEq]
    omega
  · rw [if_neg (by omega)]
    unfold digitVal
    rw [if_neg (by omega), if_pos (by omega)]
    simp only [Option.some.injEq]
    omega

theorem hexDecode_hexUpper (bs : List Nat) (h : ∀ b ∈ bs, b < 256) :
    hexDecode (hexUpper bs) = some bs := by
  induction bs with
  | nil => rfl
  | cons b t ih =>
    have hb : b < 256 := h b (List.mem_cons_self b t)
    have ht : ∀ x ∈ t, x < 256 := fun x hx => h x (List.mem_cons_of_mem b hx)
    simp only [hexUpper, hexDecode]
    rw [digitVal_nibbleCode (b / 16) (by omega), digitVal_nibbleCode (b % 16) (by omega),
      ih ht]
    simp only [Option.some.injEq, List.cons.injEq, and_true]
    omega

theorem nibbleCode_ge (n : Nat) : 48 ≤ nibbleCode n := by
  unfold nibbleCode
  split <;> omega

theorem hexUpper_ge (bs : List Nat) : ∀ c ∈ hexUpper bs, 48 ≤ c := by
  induction bs with
  | nil => intro c hc; cases hc
  | cons b t ih =>
    intro c hc
    simp only [hexUpper, List.mem_cons] at hc
    rcases hc with rfl | rfl | hc
    · exact nibbleCode_ge _
    · exact nibbleCode_ge _
    · exact ih c hc

theorem prga_length (n : Nat) : ∀ s i j, (prga n s i j).length = n := by
  induction n with
  | zero => intro s i j; rfl
  | succ n ih =>
    intro s i j
    simp only [prga, List.length_cons, ih]

theorem zip_xor_cancel (d : List Nat) :
    ∀ ks : List Nat, ks.length = d.length →
      List.zipWith (fun a k => a ^^^ k) (List.zipWith (fun a k => a ^^^ k) d ks) ks = d := by
  induction d with
  | nil => intro ks _; simp
  | cons x xs ih =>
    intro ks hks
    cases ks with
    | nil => simp at hks
    | cons k kt =>
      simp only [List.zipWith, List.cons.injEq]
      refine ⟨?_, ih kt (by simpa using hks)⟩
      rw [Nat.xor_assoc, Nat.xor_self, Nat.xor_zero]

theorem rc4apply_rc4apply (key d : List Nat) : rc4apply key (rc4apply key d) = d := by
  unfold rc4apply
  have hlen : (List.zipWith (fun a k => a ^^^ k) d (keystream key d.length)).length
      = d.length := by
    simp [keystream, prga_length]
  rw [hlen]
  exact zip_xor_cancel d (keystream key d.length) (by simp [keystream, prga_length])

theorem nthD_lt (s : List Nat) (h : ∀ x ∈ s, x < 256) :
    ∀ n, nthD s n 0 < 256 := by
  induction s with
  | nil => intro n; cases n <;> simp [nthD]
  | cons a t ih =>
    intro n
    cases n with
    | zero => exact h a (List.mem_cons_self a t)
    | succ n => exact ih (fun x hx => h x (List.mem_cons_of_mem a hx)) n

theorem mem_setL (s : List Nat) : ∀ n v x, x ∈ setL s n v → x ∈ s ∨ x = v := by
  induction s with
  | nil => intro n v x hx; cases hx
  | cons a t ih =>
    intro n v x hx
    cases n with
    | zero =>
      simp only [setL, List.mem_cons] at hx
      rcases hx with rfl | hx
      · exact Or.inr rfl
      · exact Or.inl (List.mem_cons_of_mem a hx)
    | succ n =>
      simp only [setL, List.mem_cons] at hx
      rcases hx with rfl | hx
      · exact Or.inl (List.mem_cons_self x t)
      · rcases ih n v x hx with h | h
        · exact Or.inl (List.mem_cons_of_mem a h)
        · exact Or.inr h

theorem swapL_lt (s : List Nat) (a b : Nat) (h : ∀ x ∈ s, x < 256) :
    ∀ x ∈ swapL s a b, x < 256 := by
  intro x hx
  unfold swapL at hx
  rcases mem_setL _ _ _ _ hx with hx1 | rfl
  · rcases mem_setL _ _ _ _ hx1 with hx2 | rfl
    · exact h x hx2
    · exact nthD_lt s h b
  · exact nthD_lt s h a

theorem ksa_foldl_lt (key : List Nat) (l : List Nat) :
    ∀ s j, (∀ x ∈ s, x < 256) → ∀ x ∈ (l.foldl (ksaStep key) (s, j)).1, x < 256 := by
  induction l with
  | nil => intro s j hs; exact hs
  | cons i t ih =>
    intro s j hs
    exact ih _ _ (swapL_lt s _ _ hs)

theorem ksa_lt (key : List Nat) : ∀ x ∈ ksa key, x < 256 := by
  unfold ksa
  exact ksa_foldl_lt key (List.range 256) (List.range 256) 0
    (fun x hx => List.mem_range.mp hx)

theorem prga_lt (n : Nat) :
    ∀ s i j, (∀ x ∈ s, x < 256) → ∀ x ∈ prga n s i j, x < 256 := by
  induction n with
  | zero => intro s i j _ x hx; cases hx
  | succ n ih =>
    intro s i j hs x hx
    simp only [prga, List.mem_cons] at hx
    rcases hx with rfl | hx
    · exact nthD_lt _ (swapL_lt s _ _ hs) _
    · exact ih _ _ _ (swapL_lt s _ _ hs) x hx

theorem zip_xor_lt (a : List Nat) :
    ∀ b : List Nat, (∀ x ∈ a, x < 256) → (∀ x ∈ b, x < 256) →
      ∀ x ∈ List.zipWith (fun u v => u ^^^ v) a b, x < 256 := by
  induction a with
  | nil => intro b _ _ x hx; cases hx
  | cons u ut ih =>
    intro b ha hb x hx
    cases b with
    | nil => cases hx
    | cons v vt =>
      simp only [List.zipWith, List.mem_cons] at hx
      rcases hx with rfl | hx
      · have hu : u < 256 := ha u (List.mem_cons_self u ut)
        have hv : v < 256 := hb v (List.mem_cons_self v vt)
        have : (256 : Nat) = 2 ^ 8 := by norm_num
        rw [this] at hu hv ⊢
        exact Nat.xor_lt_two_pow hu hv
      · exact ih vt (fun y hy => ha y (List.mem_cons_of_mem u hy))
          (fun y hy => hb y (List.mem_cons_of_mem v hy)) x hx

theorem rc4apply_lt (key d : List Nat) (h : ∀ x ∈ d, x < 256) :
    ∀ x ∈ rc4apply key d, x < 256 := by
  unfold rc4apply
  exact zip_xor_lt d _ h (prga_lt _ _ _ _ (ksa_lt key))

theorem take_append_self (a : List Nat) : ∀ b : List Nat, (a ++ b).take a.length = a := by
  induction a with
  | nil => intro b; rfl
  | cons x t ih =>
    intro b
    simp only [List.cons_append, List.length_cons, List.take_succ_cons]
    rw [ih b]

theorem drop_append_self (a : List Nat) : ∀ b : List Nat, (a ++ b).drop a.length = b := by
  induction a with
  | nil => intro b; rfl
  | cons x t ih =>
    intro b
    simp only [List.cons_append, List.length_cons, List.drop_succ_cons]
    exact ih b

/-- Core codec round trip: decompressing a freshly compressed container
recovers the data, given that the underlying zlib pair round-trips on it. -/
theorem decompress_compress (inflate : List Nat → Option (List Nat))
    (deflate : List Nat → List Nat) (d : List Nat)
    (hz : inflate (deflate d) = some d) (hlen : d.length < 4294967296) :
    decompress inflate (u32le COMPRESS_MAGIC ++ u32le d.length ++ deflate d) = .ok d := by
  unfold decompress
  have h8 : ¬ (u32le COMPRESS_MAGIC ++ u32le d.length ++ deflate d).length < 8 := by
    simp [u32le]
  rw [if_neg h8]
  have htake4 : (u32le COMPRESS_MAGIC ++ u32le d.length ++ deflate d).take 4
      = u32le COMPRESS_MAGIC := by
    simp [u32le, List.take]
  have hdrop4 : ((u32le COMPRESS_MAGIC ++ u32le d.length ++ deflate d).drop 4).take 4
      = u32le d.length := by
    simp [u32le, List.drop, List.take]
  have hdrop8 : (u32le COMPRESS_MAGIC ++ u32le d.length ++ deflate d).drop 8
      = deflate d := by
    simp [u32le, List.drop]
  rw [htake4, hdrop4, hdrop8]
  have hmagic : leU32 (u32le COMPRESS_MAGIC) = COMPRESS_MAGIC := by decide
  rw [hmagic, if_pos rfl, leU32_u32le, Nat.mod_eq_of_lt hlen]
  by_cases h0 : d.length = 0
  · rw [if_pos h0]
    cases d with
    | nil => rfl
    | cons x t => simp at h0
  · rw [if_neg h0, hz]
    simp

theorem keysOf_insertKV (m : Bundle) (k v : List Nat) :
    keysOf (insertKV m k v) =
      if k ∈ keysOf m then keysOf m else keysOf m ++ [k] := by
  induction m with
  | nil => simp [insertKV, keysOf]
  | cons e t ih =>
    obtain ⟨k', v'⟩ := e
    by_cases hk : k' = k
    · subst hk
      simp [insertKV, keysOf]
    · have h1 : insertKV ((k', v') :: t) k v = (k', v') :: insertKV t k v := by
        simp [insertKV, hk]
      rw [h1]
      have h2 : keysOf ((k', v') :: insertKV t k v) = k' :: keysOf (insertKV t k v) := rfl
      have h3 : keysOf ((k', v') :: t) = k' :: keysOf t := rfl
      rw [h2, h3, ih]
      by_cases hmem : k ∈ keysOf t
      · rw [if_pos hmem, if_pos (List.mem_cons_of_mem k' hmem)]
      · rw [if_neg hmem, if_neg (by
          intro hc
          rcases List.mem_cons.mp hc with hc | hc
          · exact hk hc.symm
          · exact hmem hc)]
        rfl

theorem lookupKV_insertKV_self (m : Bundle) (k v : List Nat) :
    lookupKV (insertKV m k v) k = some v := by
  induction m with
  | nil => simp [insertKV, lookupKV]
  | cons e t ih =>
    obtain ⟨k', v'⟩ := e
    by_cases hk : k' = k
    · simp [insertKV, if_pos hk, lookupKV, hk]
    · simp [insertKV, if_neg hk, lookupKV, hk, ih]

theorem lookupKV_insertKV_ne (m : Bundle) (k v k' : List Nat) (h : k' ≠ k) :
    lookupKV (insertKV m k v) k' = lookupKV m k' := by
  induction m with
  | nil =>
    have hne : ¬ (k = k') := fun hc => h hc.symm
    simp [insertKV, lookupKV, hne]
  | cons e t ih =>
    obtain ⟨ke, ve⟩ := e
    by_cases hk : ke = k
    · subst hk
      have hne : ¬ (ke = k') := fun hc => h (hc.symm)
      simp only [insertKV, if_pos rfl, lookupKV, if_neg hne]
    · simp only [insertKV, if_neg hk, lookupKV]
      by_cases hk' : ke = k'
      · rw [if_pos hk', if_pos hk']
      · rw [if_neg hk', if_neg hk', ih]

theorem insertKV_fresh (m : Bundle) (k v : List Nat) (h : k ∉ keysOf m) :
    insertKV m k v = m ++ [(k, v)] := by
  induction m with
  | nil => rfl
  | cons e t ih =>
    obtain ⟨k', v'⟩ := e
    simp only [keysOf, List.map, List.mem_cons] at h
    push_neg at h
    have h1 : ¬ (k' = k) := fun hc => h.1 hc.symm
    simp only [insertKV, if_neg h1, List.cons_append, List.cons.injEq, true_and]
    exact ih h.2

theorem keysOf_nodup_insertKV (m : Bundle) (k v : List Nat)
    (h : (keysOf m).Nodup) : (keysOf (insertKV m k v)).Nodup := by
  rw [keysOf_insertKV]
  by_cases hmem : k ∈ keysOf m
  · rw [if_pos hmem]; exact h
  · rw [if_neg hmem]
    refine List.Nodup.append h (List.nodup_singleton k) ?_
    intro x hx hx'
    rcases List.mem_singleton.mp hx' with rfl
    exact hmem hx

theorem stmtFor_eq_specStmt (gbkEnc deflate : List Nat → List Nat)
    (e : List Nat × List Nat) (h : e.2.length < 4294967296) :
    stmtFor gbkEnc deflate e = some (specStmt gbkEnc deflate e) := by
  unfold stmtFor compress
  rw [if_pos h]
  simp [specStmt, compressBytes]

theorem render_foldl_eq (gbkEnc deflate : List Nat → List Nat) (es : Bundle) :
    ∀ acc : List Nat, (∀ e ∈ es, e.2.length < 4294967296) →
      es.foldl (renderStep gbkEnc deflate) (some acc)
        = some (acc ++ (es.map (specStmt gbkEnc deflate)).flatten) := by
  induction es with
  | nil => intro acc _; simp
  | cons e t ih =>
    intro acc h
    have he : e.2.length < 4294967296 := h e (List.mem_cons_self e t)
    have ht : ∀ x ∈ t, x.2.length < 4294967296 :=
      fun x hx => h x (List.mem_cons_of_mem e hx)
    simp only [List.foldl_cons, renderStep, stmtFor_eq_specStmt gbkEnc deflate e he]
    rw [ih (acc ++ specStmt gbkEnc deflate e) ht]
    simp [List.append_assoc]

theorem renderLoaderScript_eq (gbkEnc deflate : List Nat → List Nat) (es : Bundle)
    (h : ∀ e ∈ es, e.2.length < 4294967296) :
    renderLoaderScript gbkEnc deflate es
      = some ((es.map (specStmt gbkEnc deflate)).flatten) := by
  unfold renderLoaderScript
  rw [render_foldl_eq gbkEnc deflate es [] h]
  simp

theorem decodePair_roundtrip (gbkEnc gbkDec deflate : List Nat → List Nat)
    (inflate : List Nat → Option (List Nat)) (e : List Nat × List Nat)
    (h : entryGood gbkEnc gbkDec deflate inflate e) :
    decodePair gbkDec inflate
      (hexUpper (gbkEnc e.1), hexUpper (rc4apply ULIB_KEY (compressBytes deflate e.2)))
      = some e := by
  obtain ⟨hlen, hz, hdb, hgbk, hnb⟩ := h
  have hcb : ∀ b ∈ compressBytes deflate e.2, b < 256 := by
    intro b hb
    unfold compressBytes at hb
    rcases List.mem_append.mp hb with hb | hb
    · rcases List.mem_append.mp hb with hb | hb
      · exact u32le_lt _ b hb
      · exact u32le_lt _ b hb
    · exact hdb b hb
  unfold decodePair
  rw [hexDecode_hexUpper _ hnb,
    hexDecode_hexUpper _ (rc4apply_lt ULIB_KEY _ hcb)]
  simp only [rc4apply_rc4apply]
  have hdc : decompress inflate (compressBytes deflate e.2) = .ok e.2 := by
    unfold compressBytes
    exact decompress_compress inflate deflate e.2 hz hlen
  rw [hdc, hgbk]

theorem extract_foldl (gbkEnc gbkDec deflate : List Nat → List Nat)
    (inflate : List Nat → Option (List Nat)) (es : Bundle) :
    ∀ acc : Bundle, (∀ e ∈ es, entryGood gbkEnc gbkDec deflate inflate e) →
      (∀ e ∈ es, e.1 ∉ keysOf acc) → (keysOf es).Nodup →
      (renderedPairs gbkEnc deflate es).foldl (extractStep gbkDec inflate) (some acc)
        = some (acc ++ es) := by
  induction es with
  | nil => intro acc _ _ _; simp [renderedPairs]
  | cons e t ih =>
    intro acc hg hfresh hnd
    have hge : entryGood gbkEnc gbkDec deflate inflate e := hg e (List.mem_cons_self e t)
    simp only [renderedPairs, List.map_cons, List.foldl_cons]
    have hstep : extractStep gbkDec inflate (some acc)
        (hexUpper (gbkEnc e.1), hexUpper (rc4apply ULIB_KEY (compressBytes deflate e.2)))
        = some (insertKV acc e.1 e.2) := by
      unfold extractStep
      rw [decodePair_roundtrip gbkEnc gbkDec deflate inflate e hge]
    rw [hstep, insertKV_fresh acc e.1 e.2 (hfresh e (List.mem_cons_self e t))]
    have hnd' : (keysOf t).Nodup ∧ e.1 ∉ keysOf t := by
      have hc : (e.1 :: keysOf t).Nodup := hnd
      exact ⟨List.Nodup.of_cons hc, (List.nodup_cons.mp hc).1⟩
    have hfresh' : ∀ x ∈ t, x.1 ∉ keysOf (acc ++ [e]) := by
      intro x hx hmem
      have hks : keysOf (acc ++ [e]) = keysOf acc ++ [e.1] := by
        simp [keysOf]
      rw [hks] at hmem
      rcases List.mem_append.mp hmem with hmem | hmem
      · exact hfresh x (List.mem_cons_of_mem e hx) hmem
      · rcases List.mem_singleton.mp hmem with heq
        exact hnd'.2 (heq ▸ List.mem_map_of_mem Prod.fst hx)
    have hrec := ih (acc ++ [e]) (fun x hx => hg x (List.mem_cons_of_mem e hx))
      hfresh' hnd'.1
    simp only [renderedPairs] at hrec
    have hee : acc ++ [(e.1, e.2)] = acc ++ [e] := rfl
    rw [hee, hrec]
    simp

theorem foldl_insert_nodup (c : Bundle) :
    ∀ m : Bundle, (keysOf m).Nodup →
      (keysOf (c.foldl (fun m e => insertKV m e.1 e.2) m)).Nodup := by
  induction c with
  | nil => intro m hm; exact hm
  | cons e t ih =>
    intro m hm
    exact ih _ (keysOf_nodup_insertKV m e.1 e.2 hm)

theorem bundleFor_nodup (gbkEnc compile : List Nat → List Nat) (catalog : Bundle)
    (o : BuildOptions) (stripped : List Nat) :
    (keysOf (bundleFor gbkEnc compile catalog o stripped)).Nodup := by
  unfold bundleFor setDatabase withAdaptor
  apply keysOf_nodup_insertKV
  apply foldl_insert_nodup
  simp [insertKV, keysOf]

theorem lookup_foldl_insert_ne (c : Bundle) :
    ∀ m : Bundle, ∀ k : List Nat, (∀ e ∈ c, e.1 ≠ k) →
      lookupKV (c.foldl (fun m e => insertKV m e.1 e.2) m) k = lookupKV m k := by
  induction c with
  | nil => intro m k _; rfl
  | cons e t ih =>
    intro m k h
    have h1 : e.1 ≠ k := h e (List.mem_cons_self e t)
    rw [List.foldl_cons, ih _ k (fun x hx => h x (List.mem_cons_of_mem e hx)),
      lookupKV_insertKV_ne m e.1 e.2 k (fun hc => h1 hc.symm)]

theorem lookup_bundleFor_adaptor (gbkEnc compile : List Nat → List Nat)
    (catalog : Bundle) (o : BuildOptions) (stripped : List Nat)
    (hcat : ∀ e ∈ catalog, e.1 ≠ strCodes ("adaptor.lua")) :
    lookupKV (bundleFor gbkEnc compile catalog o stripped) (strCodes ("adaptor.lua"))
      = some (compile (gbkEnc (adaptorText o.keywords o.statistics o.buildTime o.filename))) := by
  unfold bundleFor setDatabase withAdaptor
  rw [lookupKV_insertKV_ne _ _ _ _ (by decide),
    lookup_foldl_insert_ne catalog _ _ hcat,
    lookupKV_insertKV_self]

theorem lookup_bundleFor_database (gbkEnc compile : List Nat → List Nat)
    (catalog : Bundle) (o : BuildOptions) (stripped : List Nat) :
    lookupKV (bundleFor gbkEnc compile catalog o stripped) (strCodes ("database.lua"))
      = some (compile stripped) := by
  unfold bundleFor setDatabase
  exact lookupKV_insertKV_self _ _ _

theorem nthD_append (a : List Nat) :
    ∀ (b : List Nat) (i : Nat), i < a.length → nthD (a ++ b) i 0 = nthD a i 0 := by
  induction a with
  | nil => intro b i hi; simp at hi
  | cons x t ih =>
    intro b i hi
    cases i with
    | zero => rfl
    | succ i => exact ih b i (by simpa using hi)

/-! ## Claim theorems -/

/-- C2: for every byte sequence `d` whose length fits the 32-bit size field
(equivalently, on which `compress` returns rather than panics), decompressing
the compressed container recovers exactly `d`, provided the underlying zlib
pair round-trips on `d`. -/
theorem claim_C2_codec_roundtrip (deflate : List Nat → List Nat)
    (inflate : List Nat → Option (List Nat)) (d out : List Nat)
    (hz : inflate (deflate d) = some d)
    (hc : compress deflate d [] = some out) :
    decompress inflate out = .ok d := by
  unfold compress at hc
  by_cases hl : d.length < 4294967296
  · rw [if_pos hl] at hc
    injection hc with hc
    subst hc
    simpa using decompress_compress inflate deflate d hz hl
  · rw [if_neg hl] at hc
    cases hc

theorem claim_C2_codec_roundtrip_witness :
    (fun l : List Nat => some l) ((fun l : List Nat => l) [5, 77]) = some [5, 77]
    ∧ compress (fun l : List Nat => l) [5, 77] []
        = some [13, 15, 62, 3, 2, 0, 0, 0, 5, 77]
    ∧ decompress (fun l : List Nat => some l) [13, 15, 62, 3, 2, 0, 0, 0, 5, 77]
        = .ok [5, 77] :=
  ⟨rfl, by decide,
    claim_C2_codec_roundtrip (fun l => l) (fun l => some l) [5, 77] _ rfl (by decide)⟩

/-- C3: both cipher contexts are self-inverse on byte sequences of any
length: applying the pass twice returns the original data, because each call
schedules a fresh keystream; the container key has 19 bytes and the entry
key 14. -/
theorem claim_C3_cipher_involution (d : List Nat) :
    encrypt_res (encrypt_res d) = d ∧ encrypt_ulib (encrypt_ulib d) = d
      ∧ RESOURCE_KEY.length = 19 ∧ ULIB_KEY.length = 14 :=
  ⟨rc4apply_rc4apply RESOURCE_KEY d, rc4apply_rc4apply ULIB_KEY d, rfl, rfl⟩

theorem claim_C3_cipher_involution_witness :
    encrypt_res (encrypt_res [0, 255, 7]) = [0, 255, 7]
      ∧ encrypt_ulib (encrypt_ulib [0, 255, 7]) = [0, 255, 7]
      ∧ RESOURCE_KEY.length = 19 ∧ ULIB_KEY.length = 14 :=
  claim_C3_cipher_involution [0, 255, 7]

/-- C4: inserting an existing name replaces its payload but keeps its
first-seen position, other lookups are untouched; inserting `[A, B, A]`
yields emission order `[A, B]` with the last payload for `A`; and
`set_database` lands wherever `"database.lua"` first appeared, or at the
end. -/
theorem claim_C4_insert_position (m : Bundle) (k v : List Nat) :
    (keysOf (insertKV m k v) = if k ∈ keysOf m then keysOf m else keysOf m ++ [k])
    ∧ lookupKV (insertKV m k v) k = some v
    ∧ (∀ k', k' ≠ k → lookupKV (insertKV m k v) k' = lookupKV m k')
    ∧ insertKV (insertKV (insertKV [] (strCodes ("A")) [1]) (strCodes ("B")) [2])
        (strCodes ("A")) [3]
        = [(strCodes ("A"), [3]), (strCodes ("B"), [2])]
    ∧ (∀ db, keysOf (setDatabase m db)
        = if strCodes ("database.lua") ∈ keysOf m then keysOf m
          else keysOf m ++ [strCodes ("database.lua")]) := by
  refine ⟨keysOf_insertKV m k v, lookupKV_insertKV_self m k v, ?_, by decide, ?_⟩
  · intro k' h
    exact lookupKV_insertKV_ne m k v k' h
  · intro db
    exact keysOf_insertKV m _ _

theorem claim_C4_insert_position_witness :
    lookupKV (insertKV [(strCodes ("X"), [9])] (strCodes ("X")) [4]) (strCodes ("X"))
        = some [4]
      ∧ keysOf (insertKV [(strCodes ("X"), [9])] (strCodes ("X")) [4])
        = [strCodes ("X")] := by
  have h := claim_C4_insert_position [(strCodes ("X"), [9])] (strCodes ("X")) [4]
  refine ⟨h.2.1, ?_⟩
  rw [h.1]
  decide

/-- C5: the rendered loader script is exactly the concatenation, in bundle
order, of one newline-terminated `__U_Lib` statement per entry (none
skipped, zero-length payloads included), and no statement text contains an
interior newline. -/
theorem claim_C5_loader_script (gbkEnc deflate : List Nat → List Nat)
    (entries : Bundle) (h : ∀ e ∈ entries, e.2.length < 4294967296) :
    renderLoaderScript gbkEnc deflate entries
        = some ((entries.map (specStmt gbkEnc deflate)).flatten)
      ∧ (entries.map (specStmt gbkEnc deflate)).length = entries.length
      ∧ ∀ e ∈ entries, ∃ body, specStmt gbkEnc deflate e = body ++ [10]
          ∧ ∀ c ∈ body, c ≠ 10 := by
  refine ⟨renderLoaderScript_eq gbkEnc deflate entries h, List.length_map _ _, ?_⟩
  intro e _
  refine ⟨strCodes ("__U_Lib(\"") ++ hexUpper (gbkEnc e.1) ++ strCodes ("\", \"")
    ++ hexUpper (rc4apply ULIB_KEY (compressBytes deflate e.2)) ++ strCodes ("\")"),
    by simp [specStmt, List.append_assoc], ?_⟩
  have hlit1 : ∀ x ∈ strCodes ("__U_Lib(\""), x ≠ 10 := by decide
  have hlit2 : ∀ x ∈ strCodes ("\", \""), x ≠ 10 := by decide
  have hlit3 : ∀ x ∈ strCodes ("\")"), x ≠ 10 := by decide
  intro c hc
  rcases List.mem_append.mp hc with hc | hc
  · rcases List.mem_append.mp hc with hc | hc
    · rcases List.mem_append.mp hc with hc | hc
      · rcases List.mem_append.mp hc with hc | hc
        · exact hlit1 c hc
        · have := hexUpper_ge _ c hc
          omega
      · exact hlit2 c hc
    · have := hexUpper_ge _ c hc
      omega
  · exact hlit3 c hc

theorem claim_C5_loader_script_witness :
    (∀ e ∈ ([(strCodes ("A"), []), (strCodes ("B"), [0])] : Bundle),
        e.2.length < 4294967296)
    ∧ renderLoaderScript (fun l => l) (fun l => l)
        [(strCodes ("A"), []), (strCodes ("B"), [0])]
      = some (([(strCodes ("A"), ([] : List Nat)), (strCodes ("B"), [0])].map
          (specStmt (fun l => l) (fun l => l))).flatten) :=
  ⟨by decide,
    (claim_C5_loader_script (fun l => l) (fun l => l)
      [(strCodes ("A"), []), (strCodes ("B"), [0])] (by decide)).1⟩

/-- C6: on any input shorter than 8 bytes `decompress` panics in the
unwrapped header read (it does not return a truncation error); on an input
of at least 8 bytes whose leading word is not the magic it returns the
`InvalidData` error carrying the uppercase hex of the observed value. -/
theorem claim_C6_short_input_panics (inflate : List Nat → Option (List Nat))
    (data : List Nat) :
    (data.length < 8 → decompress inflate data = .panicked)
    ∧ (8 ≤ data.length → leU32 (data.take 4) ≠ COMPRESS_MAGIC →
        decompress inflate data = .badMagic (hexNatUpper (leU32 (data.take 4)))) := by
  constructor
  · intro h
    unfold decompress
    rw [if_pos h]
  · intro h hm
    unfold decompress
    rw [if_neg (by omega), if_neg hm]

theorem claim_C6_short_input_panics_witness :
    decompress (fun l => some l) [] = .panicked
    ∧ decompress (fun l => some l) [1, 2, 3, 4, 5, 6, 7, 8]
        = .badMagic (hexNatUpper 67305985) := by
  constructor
  · exact (claim_C6_short_input_panics (fun l => some l) []).1 (by decide)
  · have h := (claim_C6_short_input_panics (fun l => some l)
      [1, 2, 3, 4, 5, 6, 7, 8]).2 (by decide) (by decide)
    rw [show leU32 (List.take 4 [1, 2, 3, 4, 5, 6, 7, 8]) = 67305985 from by decide] at h
    exact h

/-- C7: under supported options, a database payload shorter than the header
floor fails the modelled build with `TooSmall`; one of at least the floor
passes validation and the pipeline continues on the payload with the
fixed-size header stripped. -/
theorem claim_C7_validation (gbkEnc deflate compile : List Nat → List Nat)
    (catalog : Bundle) (floor : Nat) (o : BuildOptions) (db : List Nat)
    (hopt : optionsSupported o = true) :
    (db.length < floor →
      buildFull gbkEnc deflate compile catalog floor o db = .err .tooSmall)
    ∧ (floor ≤ db.length →
      buildFull gbkEnc deflate compile catalog floor o db
        = buildStripped gbkEnc deflate compile catalog o (db.drop floor)) := by
  constructor
  · intro h
    unfold buildFull
    rw [if_neg (by rw [hopt]; simp), if_pos h]
  · intro h
    unfold buildFull
    rw [if_neg (by rw [hopt]; simp), if_neg (by omega)]

theorem claim_C7_validation_witness :
    optionsSupported ⟨[], true, false, false, false, [], []⟩ = true
    ∧ buildFull (fun l => l) (fun l => l) (fun l => l) [] 4
        ⟨[], true, false, false, false, [], []⟩ [1, 2, 3] = .err .tooSmall
    ∧ buildFull (fun l => l) (fun l => l) (fun l => l) [] 4
        ⟨[], true, false, false, false, [], []⟩ [1, 2, 3, 4]
      = buildStripped (fun l => l) (fun l => l) (fun l => l) []
          ⟨[], true, false, false, false, [], []⟩ (List.drop 4 [1, 2, 3, 4]) := by
  refine ⟨rfl, ?_, ?_⟩
  · exact (claim_C7_validation (fun l => l) (fun l => l) (fun l => l) [] 4
      ⟨[], true, false, false, false, [], []⟩ [1, 2, 3] rfl).1 (by decide)
  · exact (claim_C7_validation (fun l => l) (fun l => l) (fun l => l) [] 4
      ⟨[], true, false, false, false, [], []⟩ [1, 2, 3, 4] rfl).2 (by decide)

/-- C8: for every name the GBK transcode round-trips on (the formalisation
of "representable in the legacy codepage"), decoding the obfuscated
identifier — hex decode then transcode back — recovers the name. -/
theorem claim_C8_identifier_roundtrip (gbkEnc gbkDec : List Nat → List Nat)
    (name : List Nat) (h1 : gbkDec (gbkEnc name) = name)
    (h2 : ∀ b ∈ gbkEnc name, b < 256) :
    decodeName gbkDec (encodeName gbkEnc name) = some name := by
  unfold decodeName encodeName
  rw [hexDecode_hexUpper _ h2]
  simp [h1]

theorem claim_C8_identifier_roundtrip_witness :
    (fun l : List Nat => l) ((fun l : List Nat => l) (strCodes ("adaptor.lua")))
        = strCodes ("adaptor.lua")
    ∧ decodeName (fun l => l) (encodeName (fun l => l) (strCodes ("adaptor.lua")))
        = some (strCodes ("adaptor.lua")) :=
  ⟨rfl, claim_C8_identifier_roundtrip (fun l => l) (fun l => l)
    (strCodes ("adaptor.lua")) rfl (by decide)⟩

/-- C9: the adaptor template substitutes all four parameters verbatim: the
statistics flag as the boolean literal between `if ` and ` then` gating the
forwarded statistics call (literal `false` when disabled, swallowing it),
and the filename, build time and keywords inside string-literal quotes. -/
theorem claim_C9_adaptor_template (k t f : List Nat) (st : Bool) :
    (∃ p q, adaptorText k st t f
        = p ++ strCodes ("if ") ++ boolLit st ++ strCodes (" then") ++ q)
    ∧ (∃ p q, adaptorText k st t f = p ++ [34] ++ f ++ [34] ++ q)
    ∧ (∃ p q, adaptorText k st t f = p ++ [34] ++ t ++ [34] ++ q)
    ∧ (∃ p q, adaptorText k st t f = p ++ [34] ++ k ++ [34] ++ q)
    ∧ boolLit true = strCodes ("true") ∧ boolLit false = strCodes ("false") := by
  refine ⟨⟨adFrag1, adFrag2 ++ [34] ++ f ++ [34] ++ strCodes (", ") ++ [34] ++ t ++ [34]
      ++ adFrag3 ++ [34] ++ k ++ [34] ++ adFrag4, ?_⟩,
    ⟨adFrag1 ++ strCodes ("if ") ++ boolLit st ++ strCodes (" then") ++ adFrag2,
      strCodes (", ") ++ [34] ++ t ++ [34] ++ adFrag3 ++ [34] ++ k ++ [34] ++ adFrag4, ?_⟩,
    ⟨adFrag1 ++ strCodes ("if ") ++ boolLit st ++ strCodes (" then") ++ adFrag2
      ++ [34] ++ f ++ [34] ++ strCodes (", "),
      adFrag3 ++ [34] ++ k ++ [34] ++ adFrag4, ?_⟩,
    ⟨adFrag1 ++ strCodes ("if ") ++ boolLit st ++ strCodes (" then") ++ adFrag2
      ++ [34] ++ f ++ [34] ++ strCodes (", ") ++ [34] ++ t ++ [34] ++ adFrag3,
      adFrag4, ?_⟩, rfl, rfl⟩
    <;> simp [adaptorText, List.append_assoc]

theorem claim_C9_adaptor_template_witness :
    ∃ p q, adaptorText (strCodes ("kw")) false (strCodes ("2026-01-01 00:00:00"))
        (strCodes ("f.res"))
      = p ++ strCodes ("if ") ++ boolLit false ++ strCodes (" then") ++ q :=
  (claim_C9_adaptor_template (strCodes ("kw")) (strCodes ("2026-01-01 00:00:00"))
    (strCodes ("f.res")) false).1

/-- C10: `compress` appends to whatever buffer it is given; when it returns,
every prior byte is unchanged and the prior contents are a prefix of the
result. -/
theorem claim_C10_compress_appends (deflate : List Nat → List Nat)
    (data buf out : List Nat) (h : compress deflate data buf = some out) :
    out.take buf.length = buf
    ∧ (∀ i, i < buf.length → nthD out i 0 = nthD buf i 0)
    ∧ ∃ tail, out = buf ++ tail := by
  unfold compress at h
  by_cases hl : data.length < 4294967296
  · rw [if_pos hl] at h
    injection h with h
    subst h
    refine ⟨?_, ?_, ?_⟩
    · simp only [List.append_assoc]
      exact take_append_self buf _
    · intro i hi
      simp only [List.append_assoc]
      exact nthD_append buf _ i hi
    · exact ⟨u32le COMPRESS_MAGIC ++ u32le data.length ++ deflate data,
        by simp [List.append_assoc]⟩
  · rw [if_neg hl] at h
    cases h

theorem claim_C10_compress_appends_witness :
    compress (fun l => l) [1] [9, 9] = some [9, 9, 13, 15, 62, 3, 1, 0, 0, 0, 1]
    ∧ [9, 9, 13, 15, 62, 3, 1, 0, 0, 0, 1].take 2 = [9, 9] :=
  ⟨by decide,
    (claim_C10_compress_appends (fun l => l) [1] [9, 9]
      [9, 9, 13, 15, 62, 3, 1, 0, 0, 0, 1] (by decide)).1⟩

/-- C1: with exactly one of the three feature flags enabled and a database
payload at least the header floor, the modelled build succeeds, and running
the extraction harness on the artifact (once the external 10-byte trailer is
appended) recovers a bundle whose `adaptor.lua` entry is the compiled
generated adaptor text and whose `database.lua` entry is the compiled
post-strip input script.  The zlib, GBK and Lua collaborators enter through
per-entry round-trip hypotheses and the loader-execution contract `hrun`. -/
theorem claim_C1_end_to_end
    (gbkEnc gbkDec deflate : List Nat → List Nat)
    (inflate : List Nat → Option (List Nat))
    (compile : List Nat → List Nat)
    (runLoader : List Nat → List (List Nat × List Nat))
    (catalog : Bundle) (floor : Nat) (o : BuildOptions) (db trailer : List Nat)
    (hflags : (if o.safedata then 1 else 0) + (if o.jiasu then 1 else 0)
        + (if o.qudong then 1 else 0) = 1)
    (hsize : floor ≤ db.length)
    (hcat : ∀ e ∈ catalog,
        e.1 ≠ strCodes ("adaptor.lua") ∧ e.1 ≠ strCodes ("database.lua"))
    (hgood : ∀ e ∈ bundleFor gbkEnc compile catalog o (db.drop floor),
        entryGood gbkEnc gbkDec deflate inflate e)
    (hrun : ∀ s,
        renderLoaderScript gbkEnc deflate
            (bundleFor gbkEnc compile catalog o (db.drop floor)) = some s →
        runLoader (compile s)
          = renderedPairs gbkEnc deflate (bundleFor gbkEnc compile catalog o (db.drop floor)))
    (htrailer : trailer.length = 10) :
    ∃ art m, buildFull gbkEnc deflate compile catalog floor o db = .ok art
      ∧ extract gbkDec inflate runLoader (art ++ trailer) = some m
      ∧ lookupKV m (strCodes ("adaptor.lua"))
          = some (compile (gbkEnc
              (adaptorText o.keywords o.statistics o.buildTime o.filename)))
      ∧ lookupKV m (strCodes ("database.lua")) = some (compile (db.drop floor)) := by
  have hsup : optionsSupported o = true := by
    unfold optionsSupported
    cases hb : o.safedata
    · cases hc : o.jiasu
      · cases hd : o.qudong
        · exfalso
          rw [hb, hc, hd] at hflags
          simp at hflags
        · simp
      · simp
    · simp
  have hsizes : ∀ e ∈ bundleFor gbkEnc compile catalog o (db.drop floor),
      e.2.length < 4294967296 := fun e he => (hgood e he).1
  have hscript := renderLoaderScript_eq gbkEnc deflate
    (bundleFor gbkEnc compile catalog o (db.drop floor)) hsizes
  have hbuild : buildFull gbkEnc deflate compile catalog floor o db
      = .ok (rc4apply RESOURCE_KEY (compile
          (((bundleFor gbkEnc compile catalog o (db.drop floor)).map
            (specStmt gbkEnc deflate)).flatten))) := by
    unfold buildFull
    rw [if_neg (by rw [hsup]; simp), if_neg (by omega)]
    unfold buildStripped pack
    rw [hscript]
  refine ⟨_, bundleFor gbkEnc compile catalog o (db.drop floor), hbuild, ?_, ?_, ?_⟩
  · unfold extract
    have htake : ∀ a : List Nat, (a ++ trailer).take ((a ++ trailer).length - 10) = a := by
      intro a
      rw [List.length_append, htrailer,
        show a.length + 10 - 10 = a.length from by omega]
      exact take_append_self a trailer
    rw [htake, rc4apply_rc4apply,
      hrun _ hscript]
    have hnd := bundleFor_nodup gbkEnc compile catalog o (db.drop floor)
    have hfold := extract_foldl gbkEnc gbkDec deflate inflate
      (bundleFor gbkEnc compile catalog o (db.drop floor)) [] hgood
      (fun e _ hmem => absurd hmem (List.not_mem_nil _)) hnd
    rw [hfold]
    simp
  · exact lookup_bundleFor_adaptor gbkEnc compile catalog o (db.drop floor)
      (fun e he => (hcat e he).1)
  · exact lookup_bundleFor_database gbkEnc compile catalog o (db.drop floor)

theorem claim_C1_end_to_end_witness :
    (∀ e ∈ bundleFor wByteClamp wCompile [] wOpts (List.drop 0 []),
        entryGood wByteClamp wGbkDec wByteClamp wInflate e)
    ∧ ∃ art m, buildFull wByteClamp wByteClamp wCompile [] 0 wOpts [] = .ok art
        ∧ extract wGbkDec wInflate wRunLoader (art ++ List.replicate 10 0) = some m
        ∧ lookupKV m (strCodes ("adaptor.lua"))
            = some (wCompile (wByteClamp
                (adaptorText wOpts.keywords wOpts.statistics wOpts.buildTime wOpts.filename)))
        ∧ lookupKV m (strCodes ("database.lua")) = some (wCompile (List.drop 0 [])) := by
  constructor
  · decide
  · exact claim_C1_end_to_end wByteClamp wGbkDec wByteClamp wInflate wCompile
      wRunLoader [] 0 wOpts [] (List.replicate 10 0) (by decide) (by decide)
      (by decide) (by decide) (fun s _ => rfl) (by decide)

end DreamTutor
